import Mathlib

/-!
Verification development for the NosCode server (`server.js`).

The file shallowly embeds the parts of the server that the specification's
claims are about:

* the `FILE:` block extraction regex shared by `/api/ai/chat` and
  `/api/ai/auto-fix` (`extractFileBlocks`), implemented as a faithful
  backtracking matcher for the concrete pattern
  `/FILE:\s*([^\n`]+)\s*\n\s*```[\w]*\s*\n([\s\S]*?)```/gi`
  together with the `trim`, quote-stripping and `if (filepath && content)`
  guard that surround it in the source;
* the `/api/ai/auto-fix` loop (`autoFix`), with the external command
  execution and the completion provider supplied as oracles and the
  content store threaded as explicit state;
* the chat dispatch of `/api/ai/chat` (`chatHandler`) including the
  no-project guard, the delete/read regexes, the auto-fix trigger,
  the file-operation heuristic and the fallback extraction grammars;
* the `/api/terminal/run` synchronous branch, `/api/terminal/kill`,
  `/api/terminal/host` and `/api/terminal/stop` endpoints.

Strings are modelled as `List Char`; JavaScript `\s` is modelled as the
ASCII whitespace characters; machine-level aspects (actual process
spawning, timers, the database transport) are abstracted as oracle
parameters, never as stubs of the control flow under verification.
-/

/-- Shorthand for the character-list representation of strings. -/
abbrev Str := List Char

/-- The backtick character (code 96), written via `Char.ofNat`. -/
def btChar : Char := Char.ofNat 96

/-- A fenced-code delimiter: three backticks. -/
def fence : Str := [btChar, btChar, btChar]

/-- The double-quote character. -/
def dq : Char := Char.ofNat 34

/-- The single-quote character. -/
def sqChar : Char := Char.ofNat 39

/-- JavaScript `\s` restricted to ASCII: space, tab, newline, carriage
return, vertical tab, form feed. -/
def isWS (c : Char) : Bool :=
  c = ' ' || c = '\t' || c = '\n' || c = '\r' || c = Char.ofNat 11 || c = Char.ofNat 12

/-- JavaScript `\w`: ASCII letters, digits and underscore. -/
def isWordChar (c : Char) : Bool :=
  c.isAlphanum || c = '_'

/-- The character class `[^\n`]` of the `FILE:` path group. -/
def notNlBt (c : Char) : Bool :=
  !(c = '\n' || c = btChar)

/-- A quote character, as in the regex class `["']`. -/
def isQuote (c : Char) : Bool :=
  c = dq || c = sqChar

/-- Match a literal character sequence at the head of the input, returning
the rest of the input on success. -/
def expectStr : Str → Str → Option Str
  | [], cs => some cs
  | _ :: _, [] => none
  | p :: ps, c :: cs => if c = p then expectStr ps cs else none

/-- Case-insensitive variant of `expectStr`, for the regex `i` flag. -/
def expectCI : Str → Str → Option Str
  | [], cs => some cs
  | _ :: _, [] => none
  | p :: ps, c :: cs => if c.toLower = p.toLower then expectCI ps cs else none

/-- Match a literal newline at the head of the input. -/
def expectNl : Str → Option Str
  | [] => none
  | c :: cs => if c = '\n' then some cs else none

/-- Greedy `p*` with backtracking: consume as many characters satisfying
`p` as possible, then run the continuation, retreating one character at a
time on failure.  This is the standard backtracking semantics of a greedy
star in a JavaScript regex. -/
def gStar {α : Type} (p : Char → Bool) (cont : Str → Option α) : Str → Option α
  | [] => cont []
  | c :: cs =>
    if p c then
      match gStar p cont cs with
      | some r => some r
      | none => cont (c :: cs)
    else cont (c :: cs)

/-- Greedy capturing `p*`: like `gStar` but the continuation also receives
the characters consumed so far (appended to `acc`). -/
def gStarCap {α : Type} (p : Char → Bool) (cont : Str → Str → Option α) :
    Str → Str → Option α
  | acc, [] => cont acc []
  | acc, c :: cs =>
    if p c then
      match gStarCap p cont (acc ++ [c]) cs with
      | some r => some r
      | none => cont acc (c :: cs)
    else cont acc (c :: cs)

/-- Greedy capturing `p+`: at least one character, then `gStarCap`. -/
def gPlusCap {α : Type} (p : Char → Bool) (cont : Str → Str → Option α) :
    Str → Option α
  | [] => none
  | c :: cs => if p c then gStarCap p cont [c] cs else none

/-- Greedy non-capturing `p+`. -/
def gPlusNC {α : Type} (p : Char → Bool) (cont : Str → Option α) :
    Str → Option α
  | [] => none
  | c :: cs => if p c then gStar p cont cs else none

/-- Lazy capturing `[\s\S]*?`: try the continuation at the current
position first, and only on failure consume one more character. -/
def lStarCap {α : Type} (cont : Str → Str → Option α) : Str → Str → Option α
  | acc, [] => cont acc []
  | acc, c :: cs =>
    match cont acc (c :: cs) with
    | some r => some r
    | none => lStarCap cont (acc ++ [c]) cs

/-- Greedy optional `["']?`: if the next character is a quote, first try
the continuation with it consumed, then without. -/
def optQuote {α : Type} (cont : Str → Option α) : Str → Option α
  | [] => cont []
  | c :: cs =>
    if isQuote c then
      match cont cs with
      | some r => some r
      | none => cont (c :: cs)
    else cont (c :: cs)

/-- Greedy optional keyword group `(?:kw\s+)?` (case-insensitive): first
try to consume the keyword followed by mandatory whitespace, falling back
to the bare continuation. -/
def optKeyword {α : Type} (kw : Str) (cont : Str → Option α) (cs : Str) : Option α :=
  match expectCI kw cs with
  | some r1 =>
    match gPlusNC isWS cont r1 with
    | some r => some r
    | none => cont cs
  | none => cont cs

/-- Substring test, the model of JavaScript `String.prototype.includes`. -/
def containsSub : Str → Str → Bool
  | _, [] => true
  | [], _ :: _ => false
  | c :: cs, p :: ps =>
    (expectStr (p :: ps) (c :: cs)).isSome || containsSub cs (p :: ps)

/-- Suffix test, the model of JavaScript `String.prototype.endsWith`. -/
def endsWith (suf s : Str) : Bool :=
  (expectStr suf.reverse s.reverse).isSome

/-- Lowercasing, the model of `String.prototype.toLowerCase` (ASCII). -/
def lowerStr (s : Str) : Str := s.map Char.toLower

/-- The model of `trim()`: drop leading and trailing whitespace. -/
def trimChars (cs : Str) : Str :=
  ((cs.dropWhile isWS).reverse.dropWhile isWS).reverse

/-- The model of `.replace(/^["']|["']$/g, '')`: remove one leading and
one trailing quote character. -/
def stripQuotes (cs : Str) : Str :=
  let cs1 := match cs with
    | c :: rest => if isQuote c then rest else cs
    | [] => []
  match cs1.reverse with
  | c :: rest => if isQuote c then rest.reverse else cs1
  | [] => cs1

/-- The model of `String.prototype.replace(pat, repl)` with a plain
string pattern: replace the first occurrence only. -/
def replaceFirst : Str → Str → Str → Str
  | [], _, _ => []
  | c :: cs, pat, repl =>
    if (expectStr pat (c :: cs)).isSome then repl ++ (c :: cs).drop pat.length
    else c :: replaceFirst cs pat repl

/-! ## The `FILE:` block matcher

Faithful backtracking implementation of
`/FILE:\s*([^\n`]+)\s*\n\s*```[\w]*\s*\n([\s\S]*?)```/gi`
(used identically at `/api/ai/chat` and `/api/ai/auto-fix`). -/

/-- End of the `FILE:` pattern: the closing three backticks after the lazy
content group. -/
def fenceClose (content rest : Str) : Option (Str × Str) :=
  (expectStr fence rest).map (fun r => (content, r))

/-- The part of the pattern after the opening fence:
` [\w]* \s* \n ([\s\S]*?) ``` `. -/
def fRest (cs : Str) : Option (Str × Str) :=
  gStar isWordChar (fun r1 =>
    gStar isWS (fun r2 =>
      match expectNl r2 with
      | some r3 => lStarCap fenceClose [] r3
      | none => none) r1) cs

/-- The part of the pattern after the path group:
` \s* \n \s* ``` ` followed by `fRest`. -/
def afterPath (path cs : Str) : Option (Str × Str × Str) :=
  gStar isWS (fun r1 =>
    match expectNl r1 with
    | some r2 =>
      gStar isWS (fun r3 =>
        match expectStr fence r3 with
        | some r4 => (fRest r4).map (fun pr => (path, pr.1, pr.2))
        | none => none) r2
    | none => none) cs

/-- Attempt the whole `FILE:` pattern at the current position.  On success
returns the raw path capture, the raw content capture and the input
remaining after the match. -/
def matchFileAt (cs : Str) : Option (Str × Str × Str) :=
  match expectCI ('f' :: 'i' :: 'l' :: 'e' :: ':' :: []) cs with
  | none => none
  | some r0 => gStar isWS (fun r1 => gPlusCap notNlBt afterPath r1) r0

/-- The `while ((match = fileRegex.exec(...)))` loop: scan left to right,
resume after each match, apply `trim`/quote stripping to the path and
`trim` to the content, and keep a pair only when both are non-empty
(the `if (filepath && content)` guard).  `fuel` bounds the scan by the
input length; it only ever decreases as the scan advances. -/
def extractGo : Nat → Str → List (Str × Str)
  | 0, _ => []
  | _ + 1, [] => []
  | fuel + 1, c :: cs =>
    match matchFileAt (c :: cs) with
    | some (path, content, rest) =>
      let fp := stripQuotes (trimChars path)
      let ct := trimChars content
      if fp = [] ∨ ct = [] then extractGo fuel rest
      else (fp, ct) :: extractGo fuel rest
    | none => extractGo fuel cs

/-- All file edits extracted from a generated text by the primary
`FILE:` grammar. -/
def extractFileBlocks (cs : Str) : List (Str × Str) :=
  extractGo cs.length cs

/-! ## Well-formed `FILE:` inputs -/

/-- A source-level `FILE:` block: the text of the path on the marker line
and the body of the fenced code block. -/
structure FileBlock where
  path : Str
  content : Str

/-- Render one block as the canonical well-formed text
`FILE: <path>` newline, fenced body, closing fence. -/
def renderBlock (b : FileBlock) : Str :=
  'F' :: 'I' :: 'L' :: 'E' :: ':' :: ' ' ::
    (b.path ++ '\n' :: fence ++ '\n' :: b.content ++ '\n' :: fence)

/-- Render a sequence of blocks separated by blank lines. -/
def renderBlocks : List FileBlock → Str
  | [] => []
  | [b] => renderBlock b
  | b :: b2 :: bs => renderBlock b ++ '\n' :: '\n' :: renderBlocks (b2 :: bs)

/-- No suffix of the list starts with a triple backtick (so a fenced body
with this property is closed exactly by its own closing fence). -/
def noFence : Str → Bool
  | [] => true
  | c :: cs => !(expectStr fence (c :: cs)).isSome && noFence cs

/-- Well-formedness of a `FILE:` block: non-empty path without whitespace
or backticks that does not strip to nothing, and a non-empty body that
starts with a non-whitespace character and contains no triple backtick. -/
def wfBlock (b : FileBlock) : Bool :=
  !b.path.isEmpty &&
  b.path.all (fun c => !isWS c && !(c = btChar)) &&
  !(stripQuotes b.path).isEmpty &&
  (match b.content with | [] => false | c :: _ => !isWS c) &&
  noFence b.content

/-- The edit that the parser is expected to produce for a block. -/
def blockEdit (b : FileBlock) : Str × Str :=
  (stripQuotes b.path, trimChars b.content)

/-! ## The delete / read instruction regexes of `/api/ai/chat`

`/delete\s+(?:the\s+)?(?:file\s+)?["']?([^\s"']+\.\w+)["']?/i` and
`/(?:read|show|open|view|display)\s+(?:the\s+)?(?:contents?\s+(?:of\s+)?)?(?:file\s+)?["']?([^\s"']+\.\w+)["']?/i`,
searched anywhere in the prompt (`String.prototype.match`). -/

/-- The character class `[^\s"']` of the path capture. -/
def noWsQuote (c : Char) : Bool :=
  !isWS c && !isQuote c

/-- The capture `([^\s"']+\.\w+)` followed by the final optional quote:
returns the captured path. -/
def pathCapture (cs : Str) : Option Str :=
  gPlusCap noWsQuote (fun accA restA =>
    match restA with
    | c :: r1 =>
      if c = '.' then
        gPlusCap isWordChar (fun accB _ => some (accA ++ '.' :: accB)) r1
      else none
    | [] => none) cs

/-- `["']?` before the path capture. -/
def quotedPathCapture : Str → Option Str :=
  optQuote pathCapture

/-- Attempt the delete pattern at the current position. -/
def delAt (cs : Str) : Option Str :=
  match expectCI ('d' :: 'e' :: 'l' :: 'e' :: 't' :: 'e' :: []) cs with
  | none => none
  | some r0 =>
    gPlusNC isWS (fun r1 =>
      optKeyword ('t' :: 'h' :: 'e' :: []) (fun r2 =>
        optKeyword ('f' :: 'i' :: 'l' :: 'e' :: []) quotedPathCapture r2) r1) r0

/-- Search the delete pattern anywhere in the prompt. -/
def deleteSearch : Str → Option Str
  | [] => none
  | c :: cs =>
    match delAt (c :: cs) with
    | some p => some p
    | none => deleteSearch cs

/-- The tail `\s+ (?:of\s+)? …` after `contents?` in the read pattern. -/
def contentsTail {α : Type} (cont : Str → Option α) : Str → Option α :=
  gPlusNC isWS (fun r => optKeyword ('o' :: 'f' :: []) cont r)

/-- The optional `s` of `contents?` followed by `contentsTail`. -/
def contentsAfterWord {α : Type} (cont : Str → Option α) (cs : Str) : Option α :=
  match cs with
  | c :: r2 =>
    if c.toLower = 's' then
      match contentsTail cont r2 with
      | some r => some r
      | none => contentsTail cont (c :: r2)
    else contentsTail cont (c :: r2)
  | [] => contentsTail cont []

/-- The optional group `(?:contents?\s+(?:of\s+)?)?`. -/
def optContents {α : Type} (cont : Str → Option α) (cs : Str) : Option α :=
  match expectCI ('c' :: 'o' :: 'n' :: 't' :: 'e' :: 'n' :: 't' :: []) cs with
  | none => cont cs
  | some r1 =>
    match contentsAfterWord cont r1 with
    | some r => some r
    | none => cont cs

/-- The read pattern after one of the verbs has been consumed. -/
def readAfterVerb (r0 : Str) : Option Str :=
  gPlusNC isWS (fun r1 =>
    optKeyword ('t' :: 'h' :: 'e' :: []) (fun r2 =>
      optContents (fun r3 =>
        optKeyword ('f' :: 'i' :: 'l' :: 'e' :: []) quotedPathCapture r3) r2) r1) r0

/-- The verb alternation `(?:read|show|open|view|display)`, tried in
order with backtracking into the rest of the pattern. -/
def readAlt : List Str → Str → Option Str
  | [], _ => none
  | v :: vs, cs =>
    match (expectCI v cs).bind readAfterVerb with
    | some r => some r
    | none => readAlt vs cs

/-- The verbs of the read pattern, in source order. -/
def readVerbs : List Str :=
  [['r','e','a','d'], ['s','h','o','w'], ['o','p','e','n'],
   ['v','i','e','w'], ['d','i','s','p','l','a','y']]

/-- Search the read pattern anywhere in the prompt. -/
def readSearch : Str → Option Str
  | [] => none
  | c :: cs =>
    match readAlt readVerbs (c :: cs) with
    | some p => some p
    | none => readSearch cs

/-! ## Fallback extraction grammars of `/api/ai/chat`

`altRegex1 = /(?:^|\n)([a-zA-Z0-9_\-\/\.]+\.[a-zA-Z0-9]+)\s*\n```[\w]*\n([\s\S]*?)```/gi`
and
`createRegex = /(?:create|update|write|make)\s+(?:a\s+)?(?:file\s+)?(?:called\s+)?["']?([a-zA-Z0-9_\-\/\.]+\.[a-zA-Z0-9]+)["']?\s*[:\n]+\s*```[\w]*\n([\s\S]*?)```/gi`. -/

/-- The class `[a-zA-Z0-9_\-\/\.]`. -/
def isPathChar (c : Char) : Bool :=
  c.isAlphanum || c = '_' || c = '-' || c = '/' || c = '.'

/-- The fenced part ` ```[\w]*\n([\s\S]*?)``` ` shared by both fallback
grammars, pairing the capture with a previously captured path. -/
def fencedBody (fp : Str) (cs : Str) : Option (Str × Str × Str) :=
  match expectStr fence cs with
  | some r1 =>
    gStar isWordChar (fun r2 =>
      match expectNl r2 with
      | some r3 => (lStarCap fenceClose [] r3).map (fun pr => (fp, pr.1, pr.2))
      | none => none) r1
  | none => none

/-- After the path of `altRegex1`: ` \s* \n ` then the fenced body. -/
def alt1AfterPath (fp : Str) : Str → Option (Str × Str × Str) :=
  gStar isWS (fun r1 =>
    match expectNl r1 with
    | some r2 => fencedBody fp r2
    | none => none)

/-- The path-and-body capture of `altRegex1` (without the `(?:^|\n)`
anchor). -/
def alt1Capture (cs : Str) : Option (Str × Str × Str) :=
  gPlusCap isPathChar (fun accA restA =>
    match restA with
    | c :: r1 =>
      if c = '.' then
        gPlusCap (fun d => d.isAlphanum) (fun accB restB =>
          alt1AfterPath (accA ++ '.' :: accB) restB) r1
      else none
    | [] => none) cs

/-- Attempt `altRegex1` at the current position: the anchor `(?:^|\n)`
matches the empty string at the start of input or consumes a newline. -/
def alt1At (atStart : Bool) (cs : Str) : Option (Str × Str × Str) :=
  if atStart then
    match alt1Capture cs with
    | some r => some r
    | none =>
      match cs with
      | c :: rest => if c = '\n' then alt1Capture rest else none
      | [] => none
  else
    match cs with
    | c :: rest => if c = '\n' then alt1Capture rest else none
    | [] => none

/-- The scan loop of `altRegex1`, with the source guard
`if (filepath && content && !filepath.includes(' ') && filepath.includes('.'))`. -/
def alt1Go : Nat → Bool → Str → List (Str × Str)
  | 0, _, _ => []
  | _ + 1, _, [] => []
  | fuel + 1, atStart, c :: cs =>
    match alt1At atStart (c :: cs) with
    | some (fp0, ct0, rest) =>
      let fp := trimChars fp0
      let ct := trimChars ct0
      if fp ≠ [] ∧ ct ≠ [] ∧ containsSub fp [' '] = false ∧ containsSub fp ['.'] = true then
        (fp, ct) :: alt1Go fuel false rest
      else alt1Go fuel false rest
    | none => alt1Go fuel false cs

/-- All edits extracted by the first fallback grammar. -/
def alt1Extract (cs : Str) : List (Str × Str) :=
  alt1Go cs.length true cs

/-- The class `[:\n]` of `createRegex`. -/
def isColonNl (c : Char) : Bool :=
  c = ':' || c = '\n'

/-- After the path capture of `createRegex`:
`["']? \s* [:\n]+ \s*` then the fenced body. -/
def crTail (fp : Str) : Str → Option (Str × Str × Str) :=
  optQuote (fun r1 =>
    gStar isWS (fun r2 =>
      gPlusNC isColonNl (fun r3 =>
        gStar isWS (fun r4 => fencedBody fp r4) r3) r2) r1)

/-- The path capture of `createRegex`. -/
def crCapture (cs : Str) : Option (Str × Str × Str) :=
  gPlusCap isPathChar (fun accA restA =>
    match restA with
    | c :: r1 =>
      if c = '.' then
        gPlusCap (fun d => d.isAlphanum) (fun accB restB =>
          crTail (accA ++ '.' :: accB) restB) r1
      else none
    | [] => none) cs

/-- The part of `createRegex` after one of the verbs. -/
def crAfterVerb (r0 : Str) : Option (Str × Str × Str) :=
  gPlusNC isWS (fun r1 =>
    optKeyword ['a'] (fun r2 =>
      optKeyword ['f','i','l','e'] (fun r3 =>
        optKeyword ['c','a','l','l','e','d'] (optQuote crCapture) r3) r2) r1) r0

/-- The verbs of `createRegex`, in source order. -/
def crVerbs : List Str :=
  [['c','r','e','a','t','e'], ['u','p','d','a','t','e'],
   ['w','r','i','t','e'], ['m','a','k','e']]

/-- The verb alternation of `createRegex` with backtracking. -/
def crAlt : List Str → Str → Option (Str × Str × Str)
  | [], _ => none
  | v :: vs, cs =>
    match (expectCI v cs).bind crAfterVerb with
    | some r => some r
    | none => crAlt vs cs

/-- The scan loop of `createRegex`, with the `if (filepath && content)`
guard. -/
def crGo : Nat → Str → List (Str × Str)
  | 0, _ => []
  | _ + 1, [] => []
  | fuel + 1, c :: cs =>
    match crAlt crVerbs (c :: cs) with
    | some (fp0, ct0, rest) =>
      let fp := trimChars fp0
      let ct := trimChars ct0
      if fp ≠ [] ∧ ct ≠ [] then (fp, ct) :: crGo fuel rest
      else crGo fuel rest
    | none => crGo fuel cs

/-- All edits extracted by the second fallback grammar. -/
def crExtract (cs : Str) : List (Str × Str) :=
  crGo cs.length cs

/-! ## The simple-create template detection of `/api/ai/chat`

`/create\s+(?:a\s+)?(?:an\s+)?(?:new\s+)?(?:file\s+)?(?:called\s+)?(?:named\s+)?["']?([a-zA-Z0-9_\-\.\/]+\.(html|htm|js|jsx|ts|tsx|css|scss|py|java|json|md|txt|xml|yml|yaml))["']?/i`. -/

/-- The extension alternation of the simple-create pattern, in source
order; returns the extension as written in the text. -/
def extAltTry : List Str → Str → Option Str
  | [], _ => none
  | e :: es, cs =>
    match expectCI e cs with
    | some _ => some (cs.take e.length)
    | none => extAltTry es cs

/-- The extensions recognised by the simple-create pattern. -/
def extAlts : List Str :=
  [['h','t','m','l'], ['h','t','m'], ['j','s'], ['j','s','x'], ['t','s'],
   ['t','s','x'], ['c','s','s'], ['s','c','s','s'], ['p','y'],
   ['j','a','v','a'], ['j','s','o','n'], ['m','d'], ['t','x','t'],
   ['x','m','l'], ['y','m','l'], ['y','a','m','l']]

/-- The path capture of the simple-create pattern. -/
def scmCapture (cs : Str) : Option Str :=
  gPlusCap isPathChar (fun accA restA =>
    match restA with
    | c :: r1 =>
      if c = '.' then
        match extAltTry extAlts r1 with
        | some ext => some (accA ++ '.' :: ext)
        | none => none
      else none
    | [] => none) cs

/-- Attempt the simple-create pattern at the current position. -/
def scmAt (cs : Str) : Option Str :=
  match expectCI ['c','r','e','a','t','e'] cs with
  | none => none
  | some r0 =>
    gPlusNC isWS
      (optKeyword ['a']
        (optKeyword ['a','n']
          (optKeyword ['n','e','w']
            (optKeyword ['f','i','l','e']
              (optKeyword ['c','a','l','l','e','d']
                (optKeyword ['n','a','m','e','d']
                  (optQuote scmCapture))))))) r0

/-- Search the simple-create pattern anywhere in the prompt. -/
def scmSearch : Str → Option Str
  | [] => none
  | c :: cs =>
    match scmAt (c :: cs) with
    | some p => some p
    | none => scmSearch cs

/-- `filepath.split('.').pop()`: the text after the last dot. -/
def lastExt (fp : Str) : Str :=
  (fp.reverse.takeWhile (fun c => !(c = '.'))).reverse

/-! ## The chat dispatcher of `/api/ai/chat`

The handler is modelled as a pure function of the prompt, the selected
project and the completion provider's response text; the `providerCalls`
field counts how many times `callHF` was reached.  The construction of
the system prompt sent to the provider, the chat-history persistence and
the literal text produced by `generateFileTemplate` play no role in any
claim and are not reproduced: a template outcome records the matched
path and extension instead of the generated boilerplate. -/

/-- The closed set of outcomes of the chat dispatcher. -/
inductive ChatAction
  | promptRequired
  | noProjectWarning
  | deleteFileA (filepath : Str)
  | readFileA (filepath : Str)
  | autoFixA (project : Str)
  | writeFileA (filepath content : Str)
  | writeMultipleA (files : List (Str × Str))
  | writeTemplateA (filepath ext : Str)
  | plainA (response : Str)
deriving DecidableEq

/-- Outcome of one chat request plus the number of completion-provider
calls made while handling it. -/
structure ChatResult where
  action : ChatAction
  providerCalls : Nat
deriving DecidableEq

/-- The file-operation verb heuristic (`isFileOperation`). -/
def isFileOperation (lower : Str) : Bool :=
  containsSub lower ['c','r','e','a','t','e'] ||
  containsSub lower ['m','a','k','e'] ||
  containsSub lower ['w','r','i','t','e'] ||
  containsSub lower ['e','d','i','t'] ||
  containsSub lower ['m','o','d','i','f','y'] ||
  containsSub lower ['u','p','d','a','t','e'] ||
  containsSub lower ['a','d','d'] ||
  containsSub lower ['c','h','a','n','g','e'] ||
  containsSub lower ['f','i','x'] ||
  containsSub lower ['i','m','p','l','e','m','e','n','t'] ||
  containsSub lower ['b','u','i','l','d'] ||
  containsSub lower ['s','e','t','u','p'] ||
  containsSub lower ['g','e','n','e','r','a','t','e']

/-- The auto-fix trigger heuristic (`isFixCommand`). -/
def isFixCommand (lower : Str) : Bool :=
  containsSub lower ['f','i','x'] &&
  (containsSub lower ['e','r','r','o','r'] ||
   containsSub lower ['r','u','n'] ||
   containsSub lower ['e','x','e','c','u','t','e'] ||
   containsSub lower ['t','e','s','t'] ||
   containsSub lower ['c','o','n','s','o','l','e'])

/-- The stages of `/api/ai/chat` after the completion provider has been
called: primary extraction, the two fallback grammars, the write
outcomes, the simple-create template fallback, or a plain response. -/
def chatLate (prompt lower aiResp : Str) : ChatResult :=
  let isFileOp := isFileOperation lower
  let files0 := extractFileBlocks aiResp
  let files1 := if files0 = [] ∧ isFileOp = true then alt1Extract aiResp else files0
  let files := if files1 = [] ∧ isFileOp = true then crExtract aiResp else files1
  match files with
  | [f] => ⟨.writeFileA f.1 f.2, 1⟩
  | f1 :: f2 :: fs => ⟨.writeMultipleA (f1 :: f2 :: fs), 1⟩
  | [] =>
    match scmSearch prompt with
    | some fp =>
      if containsSub aiResp fence = false then
        ⟨.writeTemplateA fp (lowerStr (lastExt fp)), 1⟩
      else ⟨.plainA aiResp, 1⟩
    | none => ⟨.plainA aiResp, 1⟩

/-- The dispatch of `/api/ai/chat`: prompt guard, no-project guard,
delete intent, read intent, auto-fix trigger, then the provider stages. -/
def chatHandler (prompt : Str) (project : Option Str) (aiResp : Str) : ChatResult :=
  if prompt = [] then ⟨.promptRequired, 0⟩
  else
    let lower := lowerStr prompt
    if project = none ∧ (containsSub lower ['c','r','e','a','t','e'] ||
        containsSub lower ['f','i','l','e'] ||
        containsSub lower ['e','d','i','t']) = true then
      ⟨.noProjectWarning, 0⟩
    else
      match deleteSearch prompt with
      | some fp => ⟨.deleteFileA fp, 0⟩
      | none =>
        match readSearch prompt with
        | some fp => ⟨.readFileA fp, 0⟩
        | none =>
          match project with
          | some proj =>
            if isFixCommand lower then ⟨.autoFixA proj, 0⟩
            else chatLate prompt lower aiResp
          | none => chatLate prompt lower aiResp

/-! ## The auto-fix loop of `/api/ai/auto-fix`

External effects are oracles: `runO n` is the outcome of `exec` for the
run of attempt `n`, and `ai` maps the repair prompt actually submitted to
the completion provider's response text.  The content store is threaded
explicitly: file writes performed by the loop are visible to the file
reads of later repair cycles, exactly as in the source, where
`db.writeFile` precedes the next iteration's `db.readFile`. -/

/-- Outcome of one `exec` callback `(error, stdout, stderr)`. -/
structure ExecRes where
  failed : Bool
  errMessage : Str
  stdout : Str
  stderr : Str

/-- JavaScript `a || b` on strings (empty string is falsy). -/
def jsOr (a b : Str) : Str :=
  if a = [] then b else a

/-- What the auto-fix run promise resolves to:
`{ success: !error, output: stdout || stderr || (error ? error.message : '') }`. -/
structure RunOutcome where
  success : Bool
  output : Str

/-- The resolution of the run promise in `/api/ai/auto-fix`. -/
def autoFixRunResult (e : ExecRes) : RunOutcome :=
  ⟨!e.failed, jsOr e.stdout (jsOr e.stderr (if e.failed then e.errMessage else []))⟩

/-- The run-command determination by file-extension sniffing
(`/api/ai/auto-fix`, lines 174–186). -/
def determineCommand (fs : List Str) : Option Str :=
  if fs.any (fun f => endsWith ['.','p','y'] f) then
    match (match fs.find? (fun f => containsSub f ['m','a','i','n','.','p','y'] ||
              containsSub f ['a','p','p','.','p','y']) with
           | some m => some m
           | none => fs.find? (fun f => endsWith ['.','p','y'] f)) with
    | some m => some (['p','y',' '] ++ m)
    | none => none
  else if fs.any (fun f => endsWith ['.','g','o'] f) then
    some ['g','o',' ','r','u','n',' ','.']
  else if fs.any (fun f => endsWith ['.','j','s'] f &&
      containsSub f ['s','e','r','v','e','r']) then
    some ['n','o','d','e',' ','s','e','r','v','e','r','.','j','s']
  else if fs.any (fun f => endsWith ['.','j','a','v','a'] f) then
    match fs.find? (fun f => containsSub f ['M','a','i','n','.','j','a','v','a']) with
    | some m =>
      some (['j','a','v','a','c',' '] ++ m ++ [' ','&','&',' ','j','a','v','a',' '] ++
        replaceFirst m ['.','j','a','v','a'] [])
    | none => some (['j','a','v','a','c',' ','*','.','j','a','v','a',' ','&','&',
        ' ','j','a','v','a',' ','M','a','i','n'])
  else none

/-- `let command = runCommand; if (!command) { …sniffing… }`: an absent
or empty explicit command falls back to `determineCommand`. -/
def resolveCommand (fs : List Str) (runCommand : Option Str) : Option Str :=
  match runCommand with
  | some c => if c = [] then determineCommand fs else some c
  | none => determineCommand fs

/-- The file contents embedded into a repair prompt: the first 10 project
files that can be read from the content store
(`projectFiles.slice(0, 10)` with the per-file `try … catch` skip). -/
def cycleEmbeds (projectFiles : List Str) (store : Str → Option Str) :
    List (Str × Str) :=
  (projectFiles.take 10).filterMap (fun f => (store f).map (fun c => (f, c)))

/-- One `FILE:` section of the repair prompt, truncating the content to
3000 characters (`content.substring(0, 3000)`). -/
def fileSection (nc : Str × Str) : Str :=
  ('F' :: 'I' :: 'L' :: 'E' :: ':' :: ' ' :: nc.1) ++
    '\n' :: fence ++ '\n' :: nc.2.take 3000 ++ '\n' :: fence ++ ['\n']

/-- The fixed prose of the repair prompt before the file sections. -/
def fixPromptHeader : Str :=
  "You are a debugging expert. The code has an error. You MUST fix it.\n\nPROJECT FILES:\n".data

/-- The fixed prose of the repair prompt after the error output. -/
def fixPromptFooter : Str :=
  ("\n\nYOUR TASK:\n1. Identify the error from the output\n" ++
   "2. Fix ONLY the broken file(s)\n" ++
   "3. Respond with the FIXED files using this format:\n\n" ++
   "EXPLANATION:\nBrief description of what you fixed and why\n\n" ++
   "FILE: filename.ext\ncomplete fixed file content\n\n" ++
   "Remember: Output ONLY the files that need fixing. Use the FILE: format.").data

/-- The repair prompt submitted to the completion provider. -/
def buildFixPrompt (embeds : List (Str × Str)) (command errorOutput : Str) : Str :=
  fixPromptHeader ++ List.intercalate ['\n'] (embeds.map fileSection) ++
    "\n\nRUN COMMAND: ".data ++ command ++
    "\n\nERROR OUTPUT:\n".data ++ fence ++ '\n' :: errorOutput ++ '\n' :: fence ++
    fixPromptFooter

/-- The kinds of entries pushed onto the `fixes` audit trail. -/
inductive FixAction
  | success
  | errorDetected
  | appliedFix
  | noFixFound
deriving DecidableEq

/-- One entry of the `fixes` audit trail. -/
structure FixEntry where
  attempt : Nat
  action : FixAction
  files : List Str
deriving DecidableEq

/-- Terminal outcome of `/api/ai/auto-fix`: the `success` flag, the
ordered `fixes` trail, and ghost counters for the number of command runs
and completion-provider calls performed. -/
structure AutoFixResult where
  success : Bool
  fixes : List FixEntry
  runCalls : Nat
  providerCalls : Nat
deriving DecidableEq

/-- Write one extracted fix into the content store. -/
def storeWrite (store : Str → Option Str) (p c : Str) : Str → Option Str :=
  fun q => if q = p then some c else store q

/-- Write all extracted fixes into the content store, in order. -/
def storeWriteAll (store : Str → Option Str) : List (Str × Str) → Str → Option Str
  | [] => store
  | pc :: pcs => storeWriteAll (storeWrite store pc.1 pc.2) pcs

/-- The body of `for (let attempt = 1; attempt <= maxAttempts; attempt++)`.
`fuel` is the number of attempts still allowed, `attempt` the 1-based
index, `acc` the reversed `fixes` accumulator, `rc`/`pc` the ghost
counters. -/
def autoFixGo (runO : Nat → ExecRes) (ai : Str → Str) (projectFiles : List Str)
    (command : Str) :
    Nat → Nat → List FixEntry → (Str → Option Str) → Nat → Nat → AutoFixResult
  | 0, _, acc, _, rc, pc => ⟨false, acc.reverse, rc, pc⟩
  | fuel + 1, attempt, acc, store, rc, pc =>
    let o := autoFixRunResult (runO attempt)
    if o.success then
      ⟨true, (⟨attempt, .success, []⟩ :: acc).reverse, rc + 1, pc⟩
    else
      let acc1 : List FixEntry := ⟨attempt, .errorDetected, []⟩ :: acc
      let resp := ai (buildFixPrompt (cycleEmbeds projectFiles store) command o.output)
      let files := extractFileBlocks resp
      if files = [] then
        ⟨false, (⟨attempt, .noFixFound, []⟩ :: acc1).reverse, rc + 1, pc + 1⟩
      else
        autoFixGo runO ai projectFiles command fuel (attempt + 1)
          (⟨attempt, .appliedFix, files.map Prod.fst⟩ :: acc1)
          (storeWriteAll store files) (rc + 1) (pc + 1)

/-- The `/api/ai/auto-fix` endpoint: determine the run command (returning
the `Abandoned` result with an empty `fixes` list when none can be found)
and run the bounded repair loop with `maxAttempts = 5`. -/
def autoFix (projectFiles : List Str) (runCommand : Option Str)
    (runO : Nat → ExecRes) (ai : Str → Str) (store : Str → Option Str) :
    AutoFixResult :=
  match resolveCommand projectFiles runCommand with
  | none => ⟨false, [], 0, 0⟩
  | some c => autoFixGo runO ai projectFiles c 5 1 [] store 0 0

/-! ## The terminal endpoints -/

/-- The JSON reply of the synchronous branch of `/api/terminal/run`. -/
structure TermOut where
  output : Str
  error : Bool
deriving DecidableEq

/-- The long-running-command heuristic of `/api/terminal/run`. -/
def isServerCommand (command : Str) : Bool :=
  containsSub command "http.server".data ||
  containsSub command "serve".data ||
  (containsSub command "run".data && containsSub command "app.py".data)

/-- The Windows interpreter shim of the synchronous branch:
`if (command.startsWith('python ')) cmd = command.replace(/^python/, 'py')`. -/
def fixPySync (command : Str) : Str :=
  if (expectStr "python ".data command).isSome then
    'p' :: 'y' :: command.drop 6
  else command

/-- The synchronous `exec` branch of `/api/terminal/run`: on failure the
reply is `{ output: stderr || stdout || error.message, error: true }`,
otherwise `{ output: stdout || stderr || 'Command executed successfully' }`. -/
def terminalRunSync (e : ExecRes) : TermOut :=
  if e.failed then ⟨jsOr e.stderr (jsOr e.stdout e.errMessage), true⟩
  else ⟨jsOr e.stdout (jsOr e.stderr "Command executed successfully".data), false⟩

/-- The reply of `/api/terminal/kill`: the 400 response when no PID is
given, or the `{ success, … }` JSON body. -/
inductive KillReply
  | pidRequired
  | failed (err : String)
  | killed (pid : Nat)
deriving DecidableEq

/-- JavaScript `a || b` on `String`. -/
def jsOrS (a b : String) : String :=
  if a = "" then b else a

/-- The `/api/terminal/kill` endpoint.  The `taskkill` invocation is an
oracle: `execErr = some (message, stderr)` when the platform termination
command fails, `none` when it succeeds.  On failure the endpoint replies
without touching `runningProcesses`; on success every tracked entry whose
recorded PID matches is killed and removed. -/
def terminalKill (pid : Nat) (execErr : Option (String × String))
    (reg : List (String × Nat)) : KillReply × List (String × Nat) :=
  if pid = 0 then (.pidRequired, reg)
  else
    match execErr with
    | some em => (.failed ("Could not kill process: " ++ jsOrS em.2 em.1), reg)
    | none => (.killed pid, reg.filter (fun kv => !(kv.2 = pid)))

/-! ## The preview-server endpoints

`previewServers` is the process-wide map from project name to
`{ port, server }`; `/api/terminal/host` is short-circuited to an
unconditional failure reply (its registration code is commented out in
the source), and `/api/terminal/stop` closes and removes an entry when
one exists. -/

/-- The preview-server map, as an association list project ↦ port. -/
abbrev PrevState := List (Str × Nat)

/-- The `{ success, message }` body of the preview endpoints; `none`
models the 400 `Project required` response. -/
structure PrevReply where
  success : Bool
  message : String
deriving DecidableEq

/-- The failure message of `/api/terminal/host`. -/
def hostUnavailableMsg : String :=
  "⚠️ Preview server is not available with database storage. Deploy to Vercel to host your project."

/-- The `/api/terminal/host` endpoint: after the project-required check it
unconditionally replies `success: false` and registers nothing. -/
def hostPreview (project : Str) (st : PrevState) : Option PrevReply × PrevState :=
  if project = [] then (none, st)
  else (some ⟨false, hostUnavailableMsg⟩, st)

/-- The failure message of `/api/terminal/stop`. -/
def noPreviewMsg : String :=
  "No preview server running for this project"

/-- The `/api/terminal/stop` endpoint. -/
def stopPreview (project : Str) (st : PrevState) : Option PrevReply × PrevState :=
  if project = [] then (none, st)
  else
    match st.find? (fun kv => kv.1 = project) with
    | some kv =>
      (some ⟨true, "Preview server stopped (was on port " ++ toString kv.2 ++ ")"⟩,
        st.filter (fun e => !(e.1 = project)))
    | none => (some ⟨false, noPreviewMsg⟩, st)

/-- The requests that touch the preview-server map. -/
inductive PrevOp
  | host (project : Str)
  | stop (project : Str)

/-- The state transition of one preview request. -/
def prevStep (st : PrevState) : PrevOp → PrevState
  | .host p => (hostPreview p st).2
  | .stop p => (stopPreview p st).2

/-- The preview-server map reached from server start-up (the empty map)
by a sequence of requests. -/
def prevRun (ops : List PrevOp) : PrevState :=
  ops.foldl prevStep []

/-! ## Parser lemmas -/

theorem isWS_nl : isWS '\n' = true := by decide

theorem isWS_bt : isWS btChar = false := by decide

theorem expectNl_cons_ne (c : Char) (cs : Str) (h : ¬ c = '\n') :
    expectNl (c :: cs) = none := by
  simp [expectNl, h]

theorem expectNl_nl (cs : Str) : expectNl ('\n' :: cs) = some cs := by
  simp [expectNl]

theorem expectStr_append (xs rest : Str) : expectStr xs (xs ++ rest) = some rest := by
  induction xs with
  | nil => rfl
  | cons x xs ih => simp [expectStr, ih]

theorem expectStr_fence_nl (l : Str) : expectStr fence ('\n' :: l) = none := by
  simp only [fence, expectStr]
  rw [if_neg (by decide)]

theorem expectStr_fence_ext (c : Char) (cs t : Str)
    (h : expectStr fence (c :: cs) = none) :
    expectStr fence (c :: (cs ++ '\n' :: t)) = none := by
  by_cases h1 : c = btChar
  · subst h1
    cases cs with
    | nil =>
      simp [fence, expectStr, (by decide : ¬ ('\n' = btChar))]
    | cons c2 cs2 =>
      by_cases h2 : c2 = btChar
      · subst h2
        cases cs2 with
        | nil =>
          simp [fence, expectStr, (by decide : ¬ ('\n' = btChar))]
        | cons c3 cs3 =>
          by_cases h3 : c3 = btChar
          · exfalso
            subst h3
            simp [fence, expectStr] at h
          · simp [fence, expectStr, h3]
      · simp [fence, expectStr, h2]
  · simp [fence, expectStr, h1]

theorem gStarCap_run {α : Type} (p : Char → Bool) (cont : Str → Str → Option α) :
    ∀ (xs acc rest : Str), (∀ c ∈ xs, p c = true) →
      (∀ c, rest.head? = some c → p c = false) →
      ∀ r : α, cont (acc ++ xs) rest = some r →
      gStarCap p cont acc (xs ++ rest) = some r := by
  intro xs
  induction xs with
  | nil =>
    intro acc rest _ hstop r hc
    cases rest with
    | nil => simpa [gStarCap] using hc
    | cons c rs =>
      have hpc : p c = false := hstop c rfl
      simp only [List.nil_append] at *
      simpa [gStarCap, hpc] using hc
  | cons x xs ih =>
    intro acc rest hxs hstop r hc
    have hpx : p x = true := hxs x (List.mem_cons_self _ _)
    have hrec := ih (acc ++ [x]) rest
      (fun c hcmem => hxs c (List.mem_cons_of_mem _ hcmem)) hstop r
      (by simpa [List.append_assoc] using hc)
    simp [gStarCap, hpx, hrec]

theorem lStar_to_fence :
    ∀ (content : Str), noFence content = true →
      ∀ (acc rest : Str),
      lStarCap fenceClose acc (content ++ '\n' :: (fence ++ rest)) =
        some (acc ++ content ++ ['\n'], rest) := by
  intro content
  induction content with
  | nil =>
    intro _ acc rest
    simp only [List.nil_append]
    rw [lStarCap]
    rw [show fenceClose acc ('\n' :: (fence ++ rest)) = none from by
      simp [fenceClose, expectStr_fence_nl]]
    cases hf : fence ++ rest with
    | nil => exact absurd hf (by simp [fence])
    | cons f fs =>
      rw [lStarCap, ← hf]
      rw [show fenceClose (acc ++ ['\n']) (fence ++ rest) = some (acc ++ ['\n'], rest) from by
        simp [fenceClose, expectStr_append]]
      simp
  | cons c0 ct ih =>
    intro hf acc rest
    have hparts : (expectStr fence (c0 :: ct)).isSome = false ∧ noFence ct = true := by
      have := hf
      simp only [noFence, Bool.and_eq_true, Bool.not_eq_true'] at this
      exact this
    have hnone : expectStr fence (c0 :: ct) = none := by
      cases hx : expectStr fence (c0 :: ct) with
      | none => rfl
      | some v => rw [hx] at hparts; simp at hparts
    simp only [List.cons_append]
    rw [lStarCap]
    rw [show fenceClose acc (c0 :: (ct ++ '\n' :: (fence ++ rest))) = none from by
      simp [fenceClose, expectStr_fence_ext c0 ct (fence ++ rest) hnone]]
    rw [ih hparts.2 (acc ++ [c0]) rest]
    simp

theorem fRest_render (c0 : Char) (ct rest : Str) (h0 : isWS c0 = false)
    (hf : noFence (c0 :: ct) = true) :
    fRest ('\n' :: ((c0 :: ct) ++ '\n' :: (fence ++ rest))) =
      some ((c0 :: ct) ++ ['\n'], rest) := by
  have hc0nl : ¬ c0 = '\n' := by
    intro h
    rw [h] at h0
    exact absurd h0 (by simp [isWS_nl])
  rw [fRest, gStar]
  rw [if_neg (by decide : ¬ isWordChar '\n' = true)]
  rw [gStar]
  rw [if_pos isWS_nl]
  rw [show gStar isWS (fun r2 => match expectNl r2 with
        | some r3 => lStarCap fenceClose [] r3
        | none => none) ((c0 :: ct) ++ '\n' :: (fence ++ rest)) = none from by
    rw [List.cons_append, gStar, if_neg (by rw [h0]; exact fun h => nomatch h)]
    simp [expectNl_cons_ne c0 _ hc0nl]]
  rw [expectNl_nl]
  have := lStar_to_fence (c0 :: ct) hf [] rest
  simpa using this


theorem afterPath_render (path : Str) (c0 : Char) (ct rest : Str)
    (h0 : isWS c0 = false) (hf : noFence (c0 :: ct) = true) :
    afterPath path
        ('\n' :: (fence ++ '\n' :: ((c0 :: ct) ++ '\n' :: (fence ++ rest)))) =
      some (path, (c0 :: ct) ++ ['\n'], rest) := by
  rw [afterPath]
  rw [show fence ++ '\n' :: ((c0 :: ct) ++ '\n' :: (fence ++ rest)) =
      btChar :: btChar :: btChar :: '\n' :: ((c0 :: ct) ++ '\n' :: (fence ++ rest)) from by
    simp [fence]]
  rw [gStar, if_pos isWS_nl]
  rw [gStar, if_neg (by rw [isWS_bt]; exact fun h => nomatch h)]
  rw [expectNl_cons_ne btChar _ (by decide)]
  rw [expectNl_nl]
  simp only []
  rw [gStar, if_neg (by rw [isWS_bt]; exact fun h => nomatch h)]
  rw [show expectStr fence
      (btChar :: btChar :: btChar :: '\n' :: (c0 :: ct ++ '\n' :: (fence ++ rest))) =
      some ('\n' :: (c0 :: ct ++ '\n' :: (fence ++ rest))) from by
    have := expectStr_append fence ('\n' :: (c0 :: ct ++ '\n' :: (fence ++ rest)))
    simpa [fence] using this]
  simp only []
  rw [show ('\n' :: (c0 :: ct ++ '\n' :: (fence ++ rest)) : Str) =
      '\n' :: ((c0 :: ct) ++ '\n' :: (fence ++ rest)) from by simp]
  rw [fRest_render c0 ct rest h0 hf]
  rfl

theorem expectCI_marker (l : Str) :
    expectCI ('f' :: 'i' :: 'l' :: 'e' :: ':' :: []) ('F' :: 'I' :: 'L' :: 'E' :: ':' :: l) =
      some l := rfl

theorem matchFileAt_render (b : FileBlock) (t : Str) (hw : wfBlock b = true) :
    matchFileAt (renderBlock b ++ t) = some (b.path, b.content ++ ['\n'], t) := by
  simp only [wfBlock, Bool.and_eq_true, Bool.not_eq_true'] at hw
  obtain ⟨⟨⟨⟨hne, hall⟩, hstrip⟩, hhead⟩, hfence⟩ := hw
  cases hpath : b.path with
  | nil => rw [hpath] at hne; simp [List.isEmpty] at hne
  | cons p0 ps =>
  cases hcon : b.content with
  | nil => rw [hcon] at hhead; simp at hhead
  | cons c0 ct =>
  rw [hpath] at hall
  rw [hcon] at hhead hfence
  simp only [List.all_cons, Bool.and_eq_true, Bool.not_eq_true'] at hall
  have hp0ws : isWS p0 = false := hall.1.1
  have hp0bt : ¬ p0 = btChar := by
    intro h; rw [h] at hall; simp at hall
  have hp0nl : ¬ p0 = '\n' := by
    intro h; rw [h] at hp0ws; rw [isWS_nl] at hp0ws; exact nomatch hp0ws
  have hc0ws : isWS c0 = false := by simpa using hhead
  have hforall : ∀ c ∈ ps, notNlBt c = true := by
    intro c hc
    have h2 := hall.2
    rw [List.all_eq_true] at h2
    have h3 := h2 c hc
    simp only [Bool.and_eq_true, Bool.not_eq_true'] at h3
    have hcbt : ¬ c = btChar := by simpa using h3.2
    have hcnl : ¬ c = '\n' := by
      intro h
      rw [h, isWS_nl] at h3
      exact nomatch h3.1
    simp [notNlBt, hcbt, hcnl]
  have hnotp0 : notNlBt p0 = true := by simp [notNlBt, hp0bt, hp0nl]
  rw [renderBlock, hpath, hcon]
  simp only [List.cons_append, List.append_assoc]
  have hstop : ∀ c : Char,
      ('\n' :: (fence ++ '\n' :: c0 :: (ct ++ '\n' :: (fence ++ t))) : Str).head? = some c →
      notNlBt c = false := by
    intro c h
    simp only [List.head?_cons, Option.some.injEq] at h
    rw [← h]
    decide
  have hc : afterPath ([p0] ++ ps)
      ('\n' :: (fence ++ '\n' :: c0 :: (ct ++ '\n' :: (fence ++ t)))) =
      some (p0 :: ps, c0 :: (ct ++ ['\n']), t) := by
    have := afterPath_render (p0 :: ps) c0 ct t hc0ws hfence
    simpa using this
  have h1 : gStar isWS (fun r1 => gPlusCap notNlBt afterPath r1)
      (p0 :: (ps ++ '\n' :: (fence ++ '\n' :: c0 :: (ct ++ '\n' :: (fence ++ t))))) =
      some (p0 :: ps, c0 :: (ct ++ ['\n']), t) := by
    rw [gStar, if_neg (by rw [hp0ws]; exact fun h => nomatch h)]
    show gPlusCap notNlBt afterPath
      (p0 :: (ps ++ '\n' :: (fence ++ '\n' :: c0 :: (ct ++ '\n' :: (fence ++ t))))) = _
    rw [gPlusCap, if_pos hnotp0]
    exact gStarCap_run notNlBt afterPath ps [p0] _ hforall hstop _ hc
  have hfin : gStar isWS (fun r1 => gPlusCap notNlBt afterPath r1)
      (' ' :: p0 :: (ps ++ '\n' :: (fence ++ '\n' :: c0 :: (ct ++ '\n' :: (fence ++ t))))) =
      some (p0 :: ps, c0 :: (ct ++ ['\n']), t) := by
    rw [gStar, if_pos (by decide : isWS ' ' = true), h1]
  rw [matchFileAt, expectCI_marker]
  exact hfin

theorem dropWhile_all_false (p : Char → Bool) :
    ∀ l : Str, (∀ x ∈ l, p x = false) → l.dropWhile p = l := by
  intro l h
  induction l with
  | nil => rfl
  | cons x xs ih =>
    rw [List.dropWhile_cons]
    rw [h x (List.mem_cons_self _ _)]
    simp

theorem dropWhile_ne_nil_of_mem (p : Char → Bool) :
    ∀ (l : Str) (x : Char), x ∈ l → p x = false → l.dropWhile p ≠ [] := by
  intro l
  induction l with
  | nil => intro x hx; exact absurd hx (List.not_mem_nil x)
  | cons y ys ih =>
    intro x hx hpx
    rw [List.dropWhile_cons]
    cases hpy : p y with
    | true =>
      simp only [hpy, if_true]
      have hxy : x ∈ ys := by
        cases List.mem_cons.mp hx with
        | inl h => rw [h] at hpx; rw [hpx] at hpy; exact nomatch hpy
        | inr h => exact h
      exact ih x hxy hpx
    | false => simp

theorem dropWhile_append_of_nil (p : Char → Bool) :
    ∀ l m : Str, l.dropWhile p = [] → (l ++ m).dropWhile p = m.dropWhile p := by
  intro l
  induction l with
  | nil => intro m _; rfl
  | cons x xs ih =>
    intro m h
    rw [List.dropWhile_cons] at h
    cases hpx : p x with
    | false => rw [hpx] at h; simp at h
    | true =>
      rw [hpx] at h
      simp only [if_true] at h
      rw [List.cons_append, List.dropWhile_cons, hpx]
      simpa using ih m h

theorem dropWhile_append_of_ne_nil (p : Char → Bool) :
    ∀ l m : Str, l.dropWhile p ≠ [] → (l ++ m).dropWhile p = l.dropWhile p ++ m := by
  intro l
  induction l with
  | nil => intro m h; exact absurd rfl h
  | cons x xs ih =>
    intro m h
    rw [List.dropWhile_cons] at h ⊢
    rw [List.cons_append, List.dropWhile_cons]
    cases hpx : p x with
    | false => simp
    | true =>
      rw [hpx] at h
      simp only [if_true] at h ⊢
      exact ih m h

theorem trimChars_append_nl (xs : Str) : trimChars (xs ++ ['\n']) = trimChars xs := by
  unfold trimChars
  cases hd : xs.dropWhile isWS with
  | nil =>
    rw [dropWhile_append_of_nil isWS xs ['\n'] hd]
    rw [show (['\n'] : Str).dropWhile isWS = [] from by simp [List.dropWhile, isWS_nl]]
  | cons z zs =>
    rw [dropWhile_append_of_ne_nil isWS xs ['\n'] (by rw [hd]; exact fun h => nomatch h)]
    rw [hd]
    rw [show ((z :: zs) ++ ['\n'] : Str).reverse = '\n' :: (z :: zs).reverse from by simp]
    rw [List.dropWhile_cons, isWS_nl]
    simp

theorem trimChars_no_ws (xs : Str) (h : ∀ c ∈ xs, isWS c = false) :
    trimChars xs = xs := by
  unfold trimChars
  rw [dropWhile_all_false isWS xs h]
  rw [dropWhile_all_false isWS xs.reverse (fun c hc => h c (List.mem_reverse.mp hc))]
  exact List.reverse_reverse xs

theorem trimChars_cons_ne_nil (c0 : Char) (ct : Str) (h0 : isWS c0 = false) :
    trimChars (c0 :: ct) ≠ [] := by
  unfold trimChars
  rw [show (c0 :: ct).dropWhile isWS = c0 :: ct from by
    rw [List.dropWhile_cons, h0]; simp]
  intro h
  rw [List.reverse_eq_nil_iff] at h
  exact dropWhile_ne_nil_of_mem isWS (c0 :: ct).reverse c0
    (List.mem_reverse.mpr (List.mem_cons_self _ _)) h0 h

theorem matchFileAt_nl (cs : Str) : matchFileAt ('\n' :: cs) = none := by
  rw [matchFileAt]
  rw [show expectCI ('f' :: 'i' :: 'l' :: 'e' :: ':' :: []) ('\n' :: cs) = none from by
    rw [expectCI, if_neg (by decide)]]

theorem extractGo_nil (fuel : Nat) : extractGo fuel [] = [] := by
  cases fuel with
  | zero => rfl
  | succ f => rfl

theorem extractGo_render_step (b : FileBlock) (t : Str) (fuel : Nat)
    (hw : wfBlock b = true) :
    extractGo (fuel + 1) (renderBlock b ++ t) = blockEdit b :: extractGo fuel t := by
  have hm := matchFileAt_render b t hw
  simp only [wfBlock, Bool.and_eq_true, Bool.not_eq_true'] at hw
  obtain ⟨⟨⟨⟨hne, hall⟩, hstrip⟩, hhead⟩, hfence⟩ := hw
  have hnows : ∀ c ∈ b.path, isWS c = false := by
    intro c hc
    have h2 := hall
    rw [List.all_eq_true] at h2
    have := h2 c hc
    simp only [Bool.and_eq_true, Bool.not_eq_true'] at this
    exact this.1
  have hfp : stripQuotes (trimChars b.path) = stripQuotes b.path := by
    rw [trimChars_no_ws b.path hnows]
  have hfpne : stripQuotes b.path ≠ [] := by
    intro h
    rw [h] at hstrip
    simp at hstrip
  have hct : trimChars (b.content ++ ['\n']) = trimChars b.content :=
    trimChars_append_nl b.content
  have hctne : trimChars b.content ≠ [] := by
    cases hcon : b.content with
    | nil => rw [hcon] at hhead; simp at hhead
    | cons c0 ct0 =>
      rw [hcon] at hhead
      have hc0 : isWS c0 = false := by simpa using hhead
      exact trimChars_cons_ne_nil c0 ct0 hc0
  cases hs : renderBlock b ++ t with
  | nil => exact absurd hs (by rw [renderBlock]; simp)
  | cons c cs =>
    rw [extractGo, ← hs, hm]
    simp only [hfp, hct]
    rw [if_neg (by
      intro h
      cases h with
      | inl h => exact hfpne (hfp ▸ h)
      | inr h => exact hctne h)]
    rfl

theorem renderBlocks_roundtrip :
    ∀ (bl : List FileBlock), (∀ b ∈ bl, wfBlock b = true) →
      ∀ fuel : Nat, (renderBlocks bl).length ≤ fuel →
      extractGo fuel (renderBlocks bl) = bl.map blockEdit := by
  intro bl
  induction bl with
  | nil =>
    intro _ fuel _
    rw [renderBlocks, List.map_nil]
    exact extractGo_nil fuel
  | cons b bs ih =>
    intro hwf fuel hfuel
    have hwb : wfBlock b = true := hwf b (List.mem_cons_self _ _)
    have hwbs : ∀ b' ∈ bs, wfBlock b' = true :=
      fun b' h => hwf b' (List.mem_cons_of_mem _ h)
    have hLB : 1 ≤ (renderBlock b).length := by
      rw [renderBlock]; simp
    cases bs with
    | nil =>
      rw [renderBlocks] at hfuel ⊢
      cases fuel with
      | zero => omega
      | succ f =>
        rw [← List.append_nil (renderBlock b)]
        rw [extractGo_render_step b [] f hwb]
        rw [extractGo_nil f]
        rfl
    | cons b2 bs2 =>
      rw [renderBlocks] at hfuel ⊢
      have hlen : (renderBlock b ++ '\n' :: '\n' :: renderBlocks (b2 :: bs2)).length =
          (renderBlock b).length + 2 + (renderBlocks (b2 :: bs2)).length := by
        simp [List.length_append]
        omega
      cases fuel with
      | zero => omega
      | succ f =>
        rw [extractGo_render_step b ('\n' :: '\n' :: renderBlocks (b2 :: bs2)) f hwb]
        cases f with
        | zero => omega
        | succ f1 =>
          rw [extractGo, matchFileAt_nl]
          cases f1 with
          | zero => omega
          | succ f2 =>
            rw [extractGo, matchFileAt_nl]
            rw [ih hwbs f2 (by omega)]
            rfl

theorem extractGo_mem_ne_nil :
    ∀ (fuel : Nat) (cs : Str) (e : Str × Str), e ∈ extractGo fuel cs →
      e.1 ≠ [] ∧ e.2 ≠ [] := by
  intro fuel
  induction fuel with
  | zero => intro cs e he; exact absurd he (by rw [extractGo]; exact List.not_mem_nil e)
  | succ f ih =>
    intro cs e he
    cases cs with
    | nil => exact absurd he (by rw [extractGo]; exact List.not_mem_nil e)
    | cons c cs' =>
      rw [extractGo] at he
      cases hm : matchFileAt (c :: cs') with
      | none =>
        rw [hm] at he
        exact ih cs' e he
      | some pr =>
        obtain ⟨path, content, rest⟩ := pr
        rw [hm] at he
        simp only [] at he
        by_cases hg : stripQuotes (trimChars path) = [] ∨ trimChars content = []
        · rw [if_pos hg] at he
          exact ih rest e he
        · rw [if_neg hg] at he
          cases List.mem_cons.mp he with
          | inl h =>
            rw [h]
            push_neg at hg
            exact ⟨hg.1, hg.2⟩
          | inr h => exact ih rest e h

/-! ## Auto-fix loop lemmas -/

theorem autoFixGo_fixes_le (runO : Nat → ExecRes) (ai : Str → Str)
    (projectFiles : List Str) (command : Str) :
    ∀ (fuel attempt : Nat) (acc : List FixEntry) (store : Str → Option Str)
      (rc pc : Nat),
      acc.length ≤
        (autoFixGo runO ai projectFiles command fuel attempt acc store rc pc).fixes.length := by
  intro fuel
  induction fuel with
  | zero => intro attempt acc store rc pc; simp [autoFixGo]
  | succ f ih =>
    intro attempt acc store rc pc
    rw [autoFixGo]
    by_cases hs : (autoFixRunResult (runO attempt)).success = true
    · rw [if_pos hs]; simp
    · rw [if_neg hs]
      by_cases he : extractFileBlocks (ai (buildFixPrompt
          (cycleEmbeds projectFiles store) command
          (autoFixRunResult (runO attempt)).output)) = []
      · rw [if_pos he]; simp
      · rw [if_neg he]
        have := ih (attempt + 1)
          (⟨attempt, .appliedFix, (extractFileBlocks (ai (buildFixPrompt
              (cycleEmbeds projectFiles store) command
              (autoFixRunResult (runO attempt)).output))).map Prod.fst⟩ ::
            ⟨attempt, .errorDetected, []⟩ :: acc)
          (storeWriteAll store (extractFileBlocks (ai (buildFixPrompt
              (cycleEmbeds projectFiles store) command
              (autoFixRunResult (runO attempt)).output))))
          (rc + 1) (pc + 1)
        simp only [List.length_cons] at this
        omega

theorem autoFixGo_runCalls_le (runO : Nat → ExecRes) (ai : Str → Str)
    (projectFiles : List Str) (command : Str) :
    ∀ (fuel attempt : Nat) (acc : List FixEntry) (store : Str → Option Str)
      (rc pc : Nat),
      (autoFixGo runO ai projectFiles command fuel attempt acc store rc pc).runCalls ≤
        rc + fuel := by
  intro fuel
  induction fuel with
  | zero => intro attempt acc store rc pc; simp [autoFixGo]
  | succ f ih =>
    intro attempt acc store rc pc
    rw [autoFixGo]
    by_cases hs : (autoFixRunResult (runO attempt)).success = true
    · rw [if_pos hs]; simp
    · rw [if_neg hs]
      by_cases he : extractFileBlocks (ai (buildFixPrompt
          (cycleEmbeds projectFiles store) command
          (autoFixRunResult (runO attempt)).output)) = []
      · rw [if_pos he]; simp
      · rw [if_neg he]
        have := ih (attempt + 1)
          (⟨attempt, .appliedFix, (extractFileBlocks (ai (buildFixPrompt
              (cycleEmbeds projectFiles store) command
              (autoFixRunResult (runO attempt)).output))).map Prod.fst⟩ ::
            ⟨attempt, .errorDetected, []⟩ :: acc)
          (storeWriteAll store (extractFileBlocks (ai (buildFixPrompt
              (cycleEmbeds projectFiles store) command
              (autoFixRunResult (runO attempt)).output))))
          (rc + 1) (pc + 1)
        omega

theorem autoFixGo_fixes_pos (runO : Nat → ExecRes) (ai : Str → Str)
    (projectFiles : List Str) (command : Str) (f attempt : Nat)
    (acc : List FixEntry) (store : Str → Option Str) (rc pc : Nat) :
    1 + acc.length ≤
      (autoFixGo runO ai projectFiles command (f + 1) attempt acc store rc pc).fixes.length := by
  rw [autoFixGo]
  by_cases hs : (autoFixRunResult (runO attempt)).success = true
  · rw [if_pos hs]; simp; omega
  · rw [if_neg hs]
    by_cases he : extractFileBlocks (ai (buildFixPrompt
        (cycleEmbeds projectFiles store) command
        (autoFixRunResult (runO attempt)).output)) = []
    · rw [if_pos he]; simp; omega
    · rw [if_neg he]
      have := autoFixGo_fixes_le runO ai projectFiles command f (attempt + 1)
        (⟨attempt, .appliedFix, (extractFileBlocks (ai (buildFixPrompt
            (cycleEmbeds projectFiles store) command
            (autoFixRunResult (runO attempt)).output))).map Prod.fst⟩ ::
          ⟨attempt, .errorDetected, []⟩ :: acc)
        (storeWriteAll store (extractFileBlocks (ai (buildFixPrompt
            (cycleEmbeds projectFiles store) command
            (autoFixRunResult (runO attempt)).output))))
        (rc + 1) (pc + 1)
      simp only [List.length_cons] at this
      omega

theorem prevStep_nil (op : PrevOp) : prevStep [] op = [] := by
  cases op with
  | host p =>
    by_cases hp : p = [] <;> simp [prevStep, hostPreview, hp]
  | stop p =>
    by_cases hp : p = [] <;> simp [prevStep, stopPreview, hp, List.find?]

theorem prevRun_nil (ops : List PrevOp) : prevRun ops = [] := by
  rw [prevRun]
  induction ops with
  | nil => rfl
  | cons op ops ih =>
    rw [List.foldl_cons, prevStep_nil]
    exact ih

/-! ## Claim theorems -/

/-- C1 counterexample: the claim as stated is false.  Invoking the
auto-repair loop on a project with no recognised files and no explicit run
command terminates early (the source returns
`{ success: false, message: 'Could not determine…', fixes: [] }`), so the
attempt history returned to the caller is empty, not of length ≥ 1. -/
theorem c1_abandoned_empty_history :
    (autoFix [] none (fun _ => ⟨false, [], [], []⟩) (fun _ => [])
        (fun _ => none)).fixes = [] ∧
    (autoFix [] none (fun _ => ⟨false, [], [], []⟩) (fun _ => [])
        (fun _ => none)).success = false := by
  constructor <;> rfl

/-- C1 (amended): every invocation of the auto-repair loop performs at
most 5 run attempts; and whenever a run command is supplied or can be
determined from the project files, the attempt history returned to the
caller is non-empty (length ≥ 1) on every terminal outcome.  (When no
command can be determined, the loop terminates early with an empty
history — see the counterexample.) -/
theorem c1_loop_bound_and_history_amended
    (projectFiles : List Str) (runCommand : Option Str) (runO : Nat → ExecRes)
    (ai : Str → Str) (store : Str → Option Str) :
    (autoFix projectFiles runCommand runO ai store).runCalls ≤ 5 ∧
    (resolveCommand projectFiles runCommand ≠ none →
      1 ≤ (autoFix projectFiles runCommand runO ai store).fixes.length) := by
  constructor
  · rw [autoFix]
    cases hr : resolveCommand projectFiles runCommand with
    | none => simp
    | some c =>
      simpa using autoFixGo_runCalls_le runO ai projectFiles c 5 1 [] store 0 0
  · intro hne
    cases hr : resolveCommand projectFiles runCommand with
    | none => exact absurd hr hne
    | some c =>
      rw [autoFix, hr]
      have := autoFixGo_fixes_pos runO ai projectFiles c 4 1 [] store 0 0
      simpa using this

/-- C1 witness: a project containing `app.py` determines the run command
`py app.py`, and the amended theorem yields a non-empty attempt history
for it. -/
theorem c1_loop_bound_and_history_amended_witness :
    resolveCommand ["app.py".data] none ≠ none ∧
    1 ≤ (autoFix ["app.py".data] none (fun _ => ⟨false, [], "ok".data, []⟩)
        (fun _ => []) (fun _ => none)).fixes.length :=
  ⟨by decide,
   (c1_loop_bound_and_history_amended ["app.py".data] none
      (fun _ => ⟨false, [], "ok".data, []⟩) (fun _ => []) (fun _ => none)).2
     (by decide)⟩

/-- C3: in any repair cycle — any attempt index, any accumulated history,
any content-store state, any remaining budget — if the run fails and the
completion provider's response for that cycle yields no extractable
`FILE:` block, the loop records the error and a NoFixFound attempt,
performs no further run attempts (`runCalls` grows by exactly the one run
already made), returns `success = false` (the Exhausted reply), and the
last recorded attempt is the NoFixFound one. -/
theorem c3_no_fix_terminates (runO : Nat → ExecRes) (ai : Str → Str)
    (projectFiles : List Str) (command : Str) (fuel attempt : Nat)
    (acc : List FixEntry) (store : Str → Option Str) (rc pc : Nat)
    (hrun : (autoFixRunResult (runO attempt)).success = false)
    (hnofix : extractFileBlocks (ai (buildFixPrompt (cycleEmbeds projectFiles store)
      command (autoFixRunResult (runO attempt)).output)) = []) :
    autoFixGo runO ai projectFiles command (fuel + 1) attempt acc store rc pc =
      ⟨false,
        (⟨attempt, .noFixFound, []⟩ :: ⟨attempt, .errorDetected, []⟩ :: acc).reverse,
        rc + 1, pc + 1⟩ ∧
    (autoFixGo runO ai projectFiles command
        (fuel + 1) attempt acc store rc pc).fixes.getLast? =
      some ⟨attempt, .noFixFound, []⟩ := by
  have h1 : autoFixGo runO ai projectFiles command (fuel + 1) attempt acc store rc pc =
      ⟨false,
        (⟨attempt, .noFixFound, []⟩ :: ⟨attempt, .errorDetected, []⟩ :: acc).reverse,
        rc + 1, pc + 1⟩ := by
    rw [autoFixGo]
    rw [if_neg (by rw [hrun]; exact fun h => nomatch h)]
    rw [if_pos hnofix]
  refine ⟨h1, ?_⟩
  rw [h1]
  exact List.getLast?_reverse _

/-- C3 witness: a concrete cycle in which the run fails and the provider
response contains no `FILE:` block terminates with the Exhausted result
and a final NoFixFound attempt. -/
theorem c3_no_fix_terminates_witness :
    (autoFixRunResult ((fun _ => ⟨true, "boom".data, [], "err".data⟩ :
        Nat → ExecRes) 1)).success = false ∧
    autoFixGo (fun _ => ⟨true, "boom".data, [], "err".data⟩)
        (fun _ => "no code here".data) ["app.py".data] "py app.py".data
        5 1 [] (fun _ => none) 0 0 =
      ⟨false, [⟨1, .errorDetected, []⟩, ⟨1, .noFixFound, []⟩], 1, 1⟩ := by
  constructor
  · decide
  · have := (c3_no_fix_terminates (fun _ => ⟨true, "boom".data, [], "err".data⟩)
      (fun _ => "no code here".data) ["app.py".data] "py app.py".data
      4 1 [] (fun _ => none) 0 0 (by decide) (by decide)).1
    simpa using this

theorem autoFixGo_success_step (runO : Nat → ExecRes) (ai : Str → Str)
    (projectFiles : List Str) (command : Str) (f attempt : Nat)
    (acc : List FixEntry) (store : Str → Option Str) (rc pc : Nat)
    (hrun : (autoFixRunResult (runO attempt)).success = true) :
    autoFixGo runO ai projectFiles command (f + 1) attempt acc store rc pc =
      ⟨true, (⟨attempt, .success, []⟩ :: acc).reverse, rc + 1, pc⟩ := by
  rw [autoFixGo, if_pos hrun]

/-- C4: when a run command is determined and the first run reports no
failure, the loop returns success with exactly one recorded attempt whose
outcome is Success, and the completion provider is never called
(`providerCalls = 0`). -/
theorem c4_first_run_success (projectFiles : List Str) (runCommand : Option Str)
    (runO : Nat → ExecRes) (ai : Str → Str) (store : Str → Option Str) (c : Str)
    (hcmd : resolveCommand projectFiles runCommand = some c)
    (hrun : (runO 1).failed = false) :
    autoFix projectFiles runCommand runO ai store =
      ⟨true, [⟨1, .success, []⟩], 1, 0⟩ := by
  rw [autoFix, hcmd]
  exact autoFixGo_success_step runO ai projectFiles c 4 1 [] store 0 0
    (by simp [autoFixRunResult, hrun])

/-- C4 witness: a Python project whose first run succeeds records exactly
one Success attempt with no provider call. -/
theorem c4_first_run_success_witness :
    resolveCommand ["app.py".data] none = some "py app.py".data ∧
    autoFix ["app.py".data] none (fun _ => ⟨false, [], "ok".data, []⟩)
        (fun _ => []) (fun _ => none) =
      ⟨true, [⟨1, .success, []⟩], 1, 0⟩ :=
  ⟨by decide,
   c4_first_run_success ["app.py".data] none (fun _ => ⟨false, [], "ok".data, []⟩)
     (fun _ => []) (fun _ => none) "py app.py".data (by decide) (by decide)⟩

/-- C2: for every sequence of well-formed `FILE:` blocks (non-empty
whitespace-free path that does not strip to nothing, non-empty fenced
body that starts with a non-whitespace character and closes its own
fence), parsing the rendered text returns exactly one edit per block, in
order of appearance, with the quote characters stripped from each path
and the whitespace trimmed from each body. -/
theorem c2_parser_roundtrip (bl : List FileBlock)
    (h : ∀ b ∈ bl, wfBlock b = true) :
    extractFileBlocks (renderBlocks bl) = bl.map blockEdit ∧
    (extractFileBlocks (renderBlocks bl)).length = bl.length := by
  have hrt := renderBlocks_roundtrip bl h (renderBlocks bl).length le_rfl
  rw [extractFileBlocks]
  exact ⟨hrt, by rw [hrt, List.length_map]⟩

/-- C2 witness: two concrete well-formed blocks — one with a quoted path,
one with trailing whitespace in its body — parse back to exactly two
edits with the quotes stripped and the whitespace trimmed. -/
theorem c2_parser_roundtrip_witness :
    (∀ b ∈ ([⟨(dq :: 'a' :: 'p' :: 'p' :: '.' :: 'p' :: 'y' :: dq :: []),
              "print(1)".data⟩,
             ⟨"b.txt".data, ('h' :: 'i' :: ' ' :: [])⟩] : List FileBlock),
        wfBlock b = true) ∧
    extractFileBlocks (renderBlocks
        [⟨(dq :: 'a' :: 'p' :: 'p' :: '.' :: 'p' :: 'y' :: dq :: []),
          "print(1)".data⟩,
         ⟨"b.txt".data, ('h' :: 'i' :: ' ' :: [])⟩]) =
      ([⟨(dq :: 'a' :: 'p' :: 'p' :: '.' :: 'p' :: 'y' :: dq :: []),
         "print(1)".data⟩,
        ⟨"b.txt".data, ('h' :: 'i' :: ' ' :: [])⟩] : List FileBlock).map blockEdit ∧
    (extractFileBlocks (renderBlocks
        [⟨(dq :: 'a' :: 'p' :: 'p' :: '.' :: 'p' :: 'y' :: dq :: []),
          "print(1)".data⟩,
         ⟨"b.txt".data, ('h' :: 'i' :: ' ' :: [])⟩])).length = 2 :=
  ⟨by decide,
   (c2_parser_roundtrip _ (by decide)).1,
   (c2_parser_roundtrip _ (by decide)).2⟩

/-- C9: every edit produced by the `FILE:` extraction has a non-empty
path and non-empty content — a block whose body trims to the empty
string, or whose path trims and strips to the empty string, is dropped by
the `if (filepath && content)` guard, so no parsed directive can instruct
writing a file with empty content. -/
theorem c9_extracted_edits_nonempty (s : Str) (e : Str × Str)
    (he : e ∈ extractFileBlocks s) : e.1 ≠ [] ∧ e.2 ≠ [] :=
  extractGo_mem_ne_nil s.length s e he

/-- C9 witness: the edit extracted from a concrete one-block text is
non-empty in both components. -/
theorem c9_extracted_edits_nonempty_witness :
    (("a.py".data, ['x']) ∈
      extractFileBlocks (renderBlocks [⟨"a.py".data, ['x']⟩])) ∧
    ("a.py".data ≠ ([] : Str) ∧ (['x'] : Str) ≠ []) :=
  ⟨by decide,
   c9_extracted_edits_nonempty (renderBlocks [⟨"a.py".data, ['x']⟩])
     ("a.py".data, ['x']) (by decide)⟩

/-- C5: when the platform termination command fails for a non-zero PID
(for example because the process does not exist or has already exited),
`/api/terminal/kill` replies with a failure result carrying the platform
error text — it does not raise — and the process registry is returned
unchanged. -/
theorem c5_kill_failure_preserves_registry (pid : Nat) (em : String × String)
    (reg : List (String × Nat)) (hpid : pid ≠ 0) :
    terminalKill pid (some em) reg =
      (.failed ("Could not kill process: " ++ jsOrS em.2 em.1), reg) := by
  rw [terminalKill, if_neg hpid]

/-- C5 witness: killing PID 4242 while `taskkill` fails leaves a concrete
registry untouched. -/
theorem c5_kill_failure_preserves_registry_witness :
    (4242 : Nat) ≠ 0 ∧
    terminalKill 4242 (some ("kill error", "no such process"))
        [("proj", 4242), ("other", 7)] =
      (.failed ("Could not kill process: " ++
          jsOrS "no such process" "kill error"),
        [("proj", 4242), ("other", 7)]) :=
  ⟨by decide,
   c5_kill_failure_preserves_registry 4242 ("kill error", "no such process")
     [("proj", 4242), ("other", 7)] (by decide)⟩

/-- C6 counterexample: the claim says a failed synchronous command
returns the captured stdout when present; but `/api/terminal/run` builds
the failure output as `stderr || stdout || error.message`, so with both
streams non-empty the reply carries stderr, not stdout. -/
theorem c6_stderr_first_counterexample :
    terminalRunSync ⟨true, "msg".data, "out".data, "err".data⟩ =
      ⟨"err".data, true⟩ ∧
    ("out".data : Str) ≠ [] ∧
    (terminalRunSync ⟨true, "msg".data, "out".data, "err".data⟩).output ≠
      "out".data := by
  refine ⟨rfl, by decide, by decide⟩

/-- C6 (amended): a failed synchronous command is reported as a result
value with the error flag set, never as an exception; `/api/terminal/run`
returns the captured stderr if present, else stdout, else the error's own
message, while the run promise of `/api/ai/auto-fix` returns stdout if
present, else stderr, else the error's own message. -/
theorem c6_sync_failure_reporting_amended (e : ExecRes) (hf : e.failed = true) :
    (terminalRunSync e).error = true ∧
    (e.stderr ≠ [] → (terminalRunSync e).output = e.stderr) ∧
    (e.stderr = [] → e.stdout ≠ [] → (terminalRunSync e).output = e.stdout) ∧
    (e.stderr = [] → e.stdout = [] → (terminalRunSync e).output = e.errMessage) ∧
    (autoFixRunResult e).success = false ∧
    (e.stdout ≠ [] → (autoFixRunResult e).output = e.stdout) ∧
    (e.stdout = [] → e.stderr ≠ [] → (autoFixRunResult e).output = e.stderr) ∧
    (e.stdout = [] → e.stderr = [] → (autoFixRunResult e).output = e.errMessage) := by
  refine ⟨?_, ?_, ?_, ?_, ?_, ?_, ?_, ?_⟩
  · simp [terminalRunSync, hf]
  · intro h1; simp [terminalRunSync, hf, jsOr, h1]
  · intro h1 h2; simp [terminalRunSync, hf, jsOr, h1, h2]
  · intro h1 h2; simp [terminalRunSync, hf, jsOr, h1, h2]
  · simp [autoFixRunResult, hf]
  · intro h1; simp [autoFixRunResult, jsOr, h1]
  · intro h1 h2; simp [autoFixRunResult, hf, jsOr, h1, h2]
  · intro h1 h2; simp [autoFixRunResult, hf, jsOr, h1, h2]

/-- C6 witness: with stderr empty and stdout present, a failed run
reports stdout on both paths. -/
theorem c6_sync_failure_reporting_amended_witness :
    (⟨true, "m".data, "o".data, []⟩ : ExecRes).failed = true ∧
    (("o".data : Str) ≠ [] →
      (terminalRunSync ⟨true, "m".data, "o".data, []⟩).output = "o".data) :=
  ⟨by decide,
   fun h =>
     (c6_sync_failure_reporting_amended ⟨true, "m".data, "o".data, []⟩
       (by decide)).2.2.1 rfl h⟩

/-- C7 counterexample: the claim as stated is false.  The instruction
`"delete the file foo.txt"` contains the word `file`, so when no project
is selected the no-project guard (checked before the delete regex)
returns the warning response instead of a DeleteFile intent. -/
theorem c7_no_project_guard_counterexample :
    chatHandler "delete the file foo.txt".data none "reply".data =
      ⟨.noProjectWarning, 0⟩ ∧
    ChatAction.noProjectWarning ≠ ChatAction.deleteFileA "foo.txt".data := by
  constructor
  · decide
  · decide

/-- C7 (amended): when a project is selected, every instruction matched
by the delete regex yields a DeleteFile intent carrying the captured path
and the completion provider is never invoked; when no project is
selected, an instruction containing the word `file` (as every phrase
matching the explicit delete phrasing with `file` does) receives the
no-project warning, likewise without any provider call. -/
theorem c7_delete_intent_amended (prompt proj aiResp fp : Str)
    (hne : prompt ≠ [])
    (hdel : deleteSearch prompt = some fp) :
    chatHandler prompt (some proj) aiResp = ⟨.deleteFileA fp, 0⟩ ∧
    (∀ aiResp2 : Str,
      containsSub (lowerStr prompt) ['f', 'i', 'l', 'e'] = true →
      chatHandler prompt none aiResp2 = ⟨.noProjectWarning, 0⟩) := by
  constructor
  · rw [chatHandler, if_neg hne]
    rw [if_neg (by simp)]
    rw [hdel]
  · intro aiResp2 hfile
    rw [chatHandler, if_neg hne]
    rw [if_pos (by simp [hfile])]

/-- C7 witness: the scenario instruction `"delete the file foo.txt"` with
a project selected yields `DeleteFile "foo.txt"` with zero provider
calls, and with no project it yields the warning, also with zero calls. -/
theorem c7_delete_intent_amended_witness :
    deleteSearch "delete the file foo.txt".data = some "foo.txt".data ∧
    chatHandler "delete the file foo.txt".data (some "proj".data) "reply".data =
      ⟨.deleteFileA "foo.txt".data, 0⟩ ∧
    chatHandler "delete the file foo.txt".data none "reply".data =
      ⟨.noProjectWarning, 0⟩ :=
  ⟨by decide,
   (c7_delete_intent_amended "delete the file foo.txt".data "proj".data
      "reply".data "foo.txt".data (by decide) (by decide)).1,
   (c7_delete_intent_amended "delete the file foo.txt".data "proj".data
      "reply".data "foo.txt".data (by decide) (by decide)).2
     "reply".data (by decide)⟩

/-- C8: in every repair cycle — whatever the project's file list and the
content store hold — the repair prompt embeds the contents of at most 10
project files (`projectFiles.slice(0, 10)`), and every embedded file body
is truncated to at most 3000 characters (`content.substring(0, 3000)`, as
interpolated by `fileSection` into `buildFixPrompt`). -/
theorem c8_prompt_embedding_bounds (projectFiles : List Str)
    (store : Str → Option Str) :
    (cycleEmbeds projectFiles store).length ≤ 10 ∧
    ∀ nc, nc ∈ cycleEmbeds projectFiles store →
      (nc.2.take 3000).length ≤ 3000 := by
  constructor
  · calc (cycleEmbeds projectFiles store).length
        ≤ (projectFiles.take 10).length := List.length_filterMap_le _ _
      _ ≤ 10 := List.length_take_le _ _
  · intro nc _
    exact List.length_take_le _ _

set_option maxRecDepth 20000 in
/-- C8 witness: with twelve project files whose stored contents are 3200
characters long, the prompt embeds ten files and each embedded body stays
within 3000 characters. -/
theorem c8_prompt_embedding_bounds_witness :
    (("f0".data, List.replicate 3200 'x') ∈
      cycleEmbeds ["f0".data, "f1".data, "f2".data, "f3".data, "f4".data,
        "f5".data, "f6".data, "f7".data, "f8".data, "f9".data, "fA".data,
        "fB".data] (fun _ => some (List.replicate 3200 'x'))) ∧
    ((List.replicate 3200 'x' : Str).take 3000).length ≤ 3000 :=
  ⟨by decide,
   (c8_prompt_embedding_bounds ["f0".data, "f1".data, "f2".data, "f3".data,
      "f4".data, "f5".data, "f6".data, "f7".data, "f8".data, "f9".data,
      "fA".data, "fB".data] (fun _ => some (List.replicate 3200 'x'))).2
     ("f0".data, List.replicate 3200 'x') (by decide)⟩

/-- C10: starting from server start-up, after any sequence of host and
stop requests the preview-server map is still empty; `hostPreview`
returns `success = false` for every request carrying a project and
registers nothing, and consequently every `stopPreview` request replies
`success = false` with the no-preview-server message. -/
theorem c10_preview_map_empty (ops : List PrevOp) (p : Str) (hp : p ≠ []) :
    prevRun ops = [] ∧
    hostPreview p (prevRun ops) = (some ⟨false, hostUnavailableMsg⟩, prevRun ops) ∧
    stopPreview p (prevRun ops) = (some ⟨false, noPreviewMsg⟩, prevRun ops) := by
  have h0 : prevRun ops = [] := prevRun_nil ops
  refine ⟨h0, ?_, ?_⟩
  · rw [h0, hostPreview, if_neg hp]
  · rw [h0, stopPreview, if_neg hp]
    rfl

/-- C10 witness: after hosting and stopping concrete projects the map is
empty, hosting still fails and stopping still reports that no preview
server is running. -/
theorem c10_preview_map_empty_witness :
    ("p".data : Str) ≠ [] ∧
    prevRun [.host "p".data, .stop "p".data, .host "q".data] = [] ∧
    stopPreview "p".data
        (prevRun [.host "p".data, .stop "p".data, .host "q".data]) =
      (some ⟨false, noPreviewMsg⟩,
        prevRun [.host "p".data, .stop "p".data, .host "q".data]) :=
  ⟨by decide,
   (c10_preview_map_empty [.host "p".data, .stop "p".data, .host "q".data]
      "p".data (by decide)).1,
   (c10_preview_map_empty [.host "p".data, .stop "p".data, .host "q".data]
      "p".data (by decide)).2.2⟩
